import Mathlib

/-!
Verification of the restaking data-aggregation pipeline: a shallow embedding
of the ingestion/normalization core (`DataFetcher`, the mongoose model
methods, and the `DatabasePopulator` reconciliation passes), with theorems
settling the specification's claims about it.

Numeric-string fields (`amountStETH`, `totalRewardsReceivedStETH`, ...) are
modelled by their exact rational values.  Where the JavaScript code does its
arithmetic on numbers (`parseFloat` chains), the binary64 rounding that this
entails is modelled explicitly by `fp64round`.
-/

namespace RestakeSpec

section

attribute [local semireducible] Rat.add Rat.mul Rat.inv Rat.sub

/-! ## Unit conversion (`web3.utils.fromWei`) -/

/-- Value of a base-10 digit character, `none` for non-digits. -/
def digitVal (c : Char) : Option Nat :=
  if '0' ≤ c && c ≤ '9' then some (c.toNat - '0'.toNat) else none

/-- Accumulating base-10 parse of a character list. -/
def digitsValAux : List Char → Nat → Option Nat
  | [], acc => some acc
  | c :: cs, acc =>
    match digitVal c with
    | some d => digitsValAux cs (acc * 10 + d)
    | none => none

/-- Models `web3.utils.fromWei`'s input validation: accepted inputs are the
nonempty base-10 digit strings the subgraph serves as base-unit amounts; any
other string makes `fromWei` throw (web3's `InvalidNumber`), which the model
signals with `none`. -/
def weiParse (s : String) : Option Nat :=
  match s.data with
  | [] => none
  | c :: cs => digitsValAux (c :: cs) 0

/-- `10 ^ 18`, the ether/wei scaling factor. -/
def weiScale : Nat := 10 ^ 18

/-- `web3.utils.fromWei(n, "ether")`: exact division of the base-unit amount
by `10^18`; web3 implements this with exact decimal string arithmetic, so the
resulting decimal string is modelled by its exact rational value. -/
def fromWeiQ (n : Nat) : ℚ := (n : ℚ) / (weiScale : ℚ)

/-! ## Binary64 value semantics

JavaScript numbers are IEEE-754 binary64.  `fp64round` is the value-level
model of rounding an exact rational to the nearest double
(round-to-nearest, ties-to-even), valid on the normal range — every value
arising in this development is far from both overflow and underflow.
`parseFloat` of a decimal string of exact value `q` yields the double
`fp64round q`, and each `+` on numbers rounds its exact sum the same way. -/

/-- Fuelled base-2 logarithm (floor), structurally recursive. -/
def log2fuel : Nat → Nat → Nat
  | 0, _ => 0
  | fuel + 1, n => if 2 ≤ n then log2fuel fuel (n / 2) + 1 else 0

/-- `⌊log₂ n⌋` for positive `n` (0 for `n = 0`). -/
def natLog2 (n : Nat) : Nat := log2fuel n n

/-- `2 ^ e` as a rational, for an integer exponent. -/
def pow2 (e : ℤ) : ℚ :=
  if 0 ≤ e then ((2 ^ e.toNat : Nat) : ℚ) else (1 : ℚ) / ((2 ^ (-e).toNat : Nat) : ℚ)

/-- Floor of the base-2 logarithm of a positive rational. -/
def qlog2 (q : ℚ) : ℤ :=
  let n := q.num.toNat
  let d := q.den
  if d ≤ n then (natLog2 (n / d) : ℤ)
  else
    let l := natLog2 (d / n)
    if d % n = 0 ∧ d / n = 2 ^ l then -(l : ℤ) else -(l : ℤ) - 1

/-- Round a nonnegative rational to the nearest integer, ties to even
(the IEEE-754 default rounding). -/
def roundHalfEven (s : ℚ) : ℤ :=
  let f := Rat.floor s
  let r := s - (f : ℚ)
  if r < 1 / 2 then f
  else if 1 / 2 < r then f + 1
  else if f % 2 = 0 then f else f + 1

/-- Nearest binary64 double of an exact rational (normal range). -/
def fp64round (q : ℚ) : ℚ :=
  if q = 0 then 0
  else
    let aq := |q|
    let e : ℤ := qlog2 aq - 52
    let m : ℤ := roundHalfEven (aq / pow2 e)
    (if q < 0 then (-1 : ℚ) else 1) * (m : ℚ) * pow2 e

/-! ## Reward records (`src/models/Reward.js`) and the rewards-service
normalizer (`DataFetcher.transformRatedRewardsData`, part_000 302-339) -/

/-- The all-zero operator address used as default attribution. -/
def zeroAddr : String := "0x0000000000000000000000000000000000000000"

/-- ASCII lower-casing of one character. -/
def lowerChar (c : Char) : Char :=
  if 'A' ≤ c && c ≤ 'Z' then Char.ofNat (c.toNat + 32) else c

/-- `String.prototype.toLowerCase()` (on the ASCII addresses and strategy
ids this pipeline handles). -/
def strToLower (s : String) : String := ⟨s.data.map lowerChar⟩

/-- One item of the rewards-service response body's `rewards` array.  The
monetary fields arrive as base-unit numeric strings and are modelled by their
`Nat` values (`none` = field absent / JSON-falsy). -/
structure RawRewardItem where
  amount : Option Nat
  value : Option Nat
  operator : Option String
  validator : Option String
  timestamp : Option Nat
  block_time : Option Nat
  tx_hash : Option String
  block_number : Option Nat
deriving DecidableEq, Repr

/-- A rewards-service response body; `rewards` is `none` when the field is
absent or not an array (`if (data.rewards && Array.isArray(data.rewards))`). -/
structure RatedBody where
  rewards : Option (List RawRewardItem)
deriving DecidableEq, Repr

/-- A per-operator sub-ledger inside a RewardRecord (`rewardBreakdownSchema`). -/
structure RewardBreakdown where
  operatorAddress : String
  amountStETH : ℚ
  timestamps : List Nat
  transactionHashes : List String
  blockNumbers : List Nat
deriving DecidableEq, Repr

/-- A persisted RewardRecord (`rewardSchema`), restricted to the fields the
pipeline writes through `findOneAndUpdate` / `addReward`. -/
structure Reward where
  walletAddress : String
  totalRewardsReceivedStETH : ℚ
  rewardsBreakdown : List RewardBreakdown
deriving DecidableEq, Repr

/-- The amount a reward item contributes: `reward.amount || reward.value || "0"`
(base units). -/
def rawAmount (r : RawRewardItem) : Nat :=
  ((r.amount.orElse fun _ => r.value).getD 0)

/-- The decimal-converted amount of one reward item,
`web3.utils.fromWei(amount, "ether")`. -/
def convAmount (r : RawRewardItem) : ℚ := fromWeiQ (rawAmount r)

/-- One loop body of `transformRatedRewardsData`: the breakdown entry pushed
for a reward item; `now` models `Math.floor(Date.now() / 1000)`, used when
both timestamp fields are absent. -/
def mkBreakdown (now : Nat) (r : RawRewardItem) : RewardBreakdown :=
  { operatorAddress := (r.operator.orElse fun _ => r.validator).getD zeroAddr
    amountStETH := convAmount r
    timestamps := [(r.timestamp.orElse fun _ => r.block_time).getD now]
    transactionHashes := match r.tx_hash with | some h => [h] | none => []
    blockNumbers := match r.block_number with | some b => [b] | none => [] }

/-- The running total of `transformRatedRewardsData`:
`totalRewards = (parseFloat(totalRewards) + parseFloat(fromWei(amount))).toString()`.
Both `parseFloat`s and the `+` are JavaScript number (binary64) operations;
re-parsing the previous `toString` output is value-preserving on doubles, so
each step rounds the converted amount and then the sum through `fp64round`. -/
def ratedTotal (rs : List RawRewardItem) : ℚ :=
  rs.foldl (fun tot r => fp64round (tot + fp64round (convAmount r))) 0

/-- `DataFetcher.transformRatedRewardsData(data, walletAddress)`
(part_000 302-339). -/
def transformRatedRewardsData (data : RatedBody) (walletAddress : String)
    (now : Nat) : Reward :=
  match data.rewards with
  | none =>
    { walletAddress := strToLower walletAddress
      totalRewardsReceivedStETH := 0
      rewardsBreakdown := [] }
  | some rs =>
    { walletAddress := strToLower walletAddress
      totalRewardsReceivedStETH := ratedTotal rs
      rewardsBreakdown := rs.map (mkBreakdown now) }

/-- Written from the spec, for comparison with `ratedTotal`: the exact
decimal sum of the converted amounts of all reward items ("accumulate
`totalRewardsReceived` as the exact decimal sum of all converted amounts"). -/
def exactDecimalTotal (rs : List RawRewardItem) : ℚ :=
  (rs.map convAmount).sum

/-- Replace the first breakdown whose operator matches `key` by `f` of it
(models mutating the result of `this.rewardsBreakdown.find(...)`). -/
def updateFirstBreakdown (key : String) (f : RewardBreakdown → RewardBreakdown) :
    List RewardBreakdown → List RewardBreakdown
  | [] => []
  | b :: rest =>
    if b.operatorAddress = key then f b :: rest
    else b :: updateFirstBreakdown key f rest

/-- `rewardSchema.methods.addReward(operatorAddress, amount, timestamp,
transactionHash, blockNumber)` (Reward.js 203-242): additive merge into the
per-operator breakdown, then increment the running total.  Both increments
are `(parseFloat(a) + parseFloat(b)).toString()` — JavaScript number
(binary64) additions — so each parse and the sum round through
`fp64round`; only the fresh breakdown of the `else` branch stores the raw
`amount.toString()` unparsed. -/
def addReward (r : Reward) (operatorAddress : String) (amount : ℚ)
    (timestamp : Nat) (transactionHash : Option String)
    (blockNumber : Option Nat) : Reward :=
  let key := strToLower operatorAddress
  let merged :=
    if (r.rewardsBreakdown.find? fun b => b.operatorAddress = key).isSome then
      updateFirstBreakdown key
        (fun b =>
          { b with
            amountStETH := fp64round (fp64round b.amountStETH + fp64round amount)
            timestamps := b.timestamps ++ [timestamp]
            transactionHashes :=
              match transactionHash with
              | some h => b.transactionHashes ++ [h]
              | none => b.transactionHashes
            blockNumbers :=
              match blockNumber with
              | some n => b.blockNumbers ++ [n]
              | none => b.blockNumbers })
        r.rewardsBreakdown
    else
      r.rewardsBreakdown ++
        [{ operatorAddress := key
           amountStETH := amount
           timestamps := [timestamp]
           transactionHashes :=
             match transactionHash with | some h => [h] | none => []
           blockNumbers :=
             match blockNumber with | some n => [n] | none => [] }]
  { r with
    rewardsBreakdown := merged
    totalRewardsReceivedStETH :=
      fp64round (fp64round r.totalRewardsReceivedStETH + fp64round amount) }

/-- `Reward.findOneAndUpdate({ walletAddress }, rewardData, { upsert: true })`
as used by `populateRewards` (fetchData.js 142-146): the first stored record
with a matching wallet is replaced wholesale by the incoming payload;
otherwise the payload is inserted. -/
def upsertReplace : List Reward → Reward → List Reward
  | [], p => [p]
  | r :: rest, p =>
    if r.walletAddress = p.walletAddress then p :: rest
    else r :: upsertReplace rest p

/-- The persistence loop of `DatabasePopulator.populateRewards`
(fetchData.js 118-155) over the per-wallet fetched payloads: a payload is
persisted (replace-by-key upsert) only when its computed total is strictly
positive. -/
def persistRewards (store : List Reward) (payloads : List Reward) : List Reward :=
  payloads.foldl
    (fun s p => if 0 < p.totalRewardsReceivedStETH then upsertReplace s p else s)
    store

/-- `Reward.findOne({ walletAddress: w })`. -/
def lookupWallet (store : List Reward) (w : String) : Option Reward :=
  store.find? fun r => r.walletAddress = w

/-! ## Canonical entity records (`src/models/Restaker.js`, `Validator.js`) -/

/-- `restakerSchema.status` enum. -/
inductive RStatus where
  | active
  | unstaking
  | withdrawn
deriving DecidableEq, Repr

/-- A persisted Restaker / DelegationRecord, restricted to the fields the
pipeline writes; `delegationTimestamp` is the JS `Date` value in
milliseconds. -/
structure Restaker where
  userAddress : String
  amountRestakedStETH : ℚ
  targetAVSOperatorAddress : String
  delegationTimestamp : Nat
  transactionHash : String
  blockNumber : Nat
  status : RStatus
deriving DecidableEq, Repr

/-- `validatorSchema.status` enum. -/
inductive VStatus where
  | active
  | jailed
  | slashed
  | inactive
  | deregistered
deriving DecidableEq, Repr

/-- A slash event owned by a validator (`slashEventSchema`). -/
structure SlashEvent where
  timestamp : Nat
  amountStETH : ℚ
  reason : String
  transactionHash : String
  blockNumber : Nat
deriving DecidableEq, Repr

/-- A persisted Validator / OperatorRecord, restricted to the fields the
pipeline writes. -/
structure Validator where
  operatorAddress : String
  totalDelegatedStakeStETH : ℚ
  slashHistory : List SlashEvent
  status : VStatus
  registrationTimestamp : Nat
  lastActivityTimestamp : Nat
  delegatorCount : Nat
  commission : Nat
  metadataURI : String
deriving DecidableEq, Repr

/-- `validatorSchema.methods.addSlashEvent(slashData)` (Validator.js 161-168):
push the event and move an `active` validator to `slashed`. -/
def addSlashEvent (v : Validator) (e : SlashEvent) : Validator :=
  let v1 := { v with slashHistory := v.slashHistory ++ [e] }
  if v1.status = VStatus.active then { v1 with status := VStatus.slashed } else v1

/-- A `forEach` loop that pushes the result of a `try`-wrapped per-item
transform: items on which the transform fails are caught, logged and
skipped, contributing nothing to the output sequence. -/
def pushSome {α β : Type} (f : α → Option β) (l : List α) : List β :=
  l.foldl (fun acc a => match f a with | some b => acc ++ [b] | none => acc) []

/-! ## Delegation normalizer (`DataFetcher.transformRestakingData`,
part_000 102-166) -/

/-- A raw delegation event as served by the subgraph; `shares` stays a string
because its parse is what can fail. -/
structure RawDelegation where
  delegator : String
  operator : String
  shares : String
  createdAt : Nat
  transactionHash : String
  blockNumber : Nat
deriving DecidableEq, Repr

/-- A raw staker deposit; `strategy` is the deposit's strategy id. -/
structure RawDeposit where
  shares : String
  strategy : String
  transactionHash : String
  blockNumber : Nat
  createdAt : Nat
deriving DecidableEq, Repr

/-- A raw staker with its deposits. -/
structure RawStaker where
  id : String
  deposits : List RawDeposit
deriving DecidableEq, Repr

/-- The two result sets of the restaking query (absent sets modelled as `[]`). -/
structure RawRestakingData where
  delegations : List RawDelegation
  stakers : List RawStaker
deriving DecidableEq, Repr

/-- The per-delegation loop body: fails (is skipped) exactly when
`fromWei(delegation.shares)` throws on a non-numeric `shares`. -/
def mkDelegationRecord (d : RawDelegation) : Option Restaker :=
  (weiParse d.shares).map fun n =>
    { userAddress := d.delegator
      amountRestakedStETH := fromWeiQ n
      targetAVSOperatorAddress := d.operator
      delegationTimestamp := d.createdAt * 1000
      transactionHash := d.transactionHash
      blockNumber := d.blockNumber
      status := RStatus.active }

/-- `pat` is at the head of `text`. -/
def headMatches : List Char → List Char → Bool
  | [], _ => true
  | _ :: _, [] => false
  | p :: ps, t :: ts => p = t && headMatches ps ts

/-- `pat` occurs somewhere in `text` (JS `String.prototype.includes`). -/
def hasSub (pat : List Char) : List Char → Bool
  | [] => headMatches pat []
  | t :: ts => headMatches pat (t :: ts) || hasSub pat ts

/-- The stETH-deposit filter: strategy id contains "steth" case-insensitively,
or equals the configured strategy address lowercased (`cfg` models
`process.env.STETH_STRATEGY_ADDRESS`, `none` when unset). -/
def matchesStETHStrategy (cfg : Option String) (d : RawDeposit) : Bool :=
  hasSub ("steth".data) (strToLower d.strategy).data ||
    match cfg with
    | some a => d.strategy = strToLower a
    | none => false

/-- The per-deposit loop body for a staker's stETH deposits: the operator
defaults to the zero address. -/
def mkDepositRecord (stakerId : String) (d : RawDeposit) : Option Restaker :=
  (weiParse d.shares).map fun n =>
    { userAddress := stakerId
      amountRestakedStETH := fromWeiQ n
      targetAVSOperatorAddress := zeroAddr
      delegationTimestamp := d.createdAt * 1000
      transactionHash := d.transactionHash
      blockNumber := d.blockNumber
      status := RStatus.active }

/-- `DataFetcher.transformRestakingData(data)` (part_000 102-166):
per-delegation records, then per-staker records for the deposits passing the
stETH-strategy filter. -/
def transformRestakingData (cfg : Option String) (data : RawRestakingData) :
    List Restaker :=
  pushSome mkDelegationRecord data.delegations ++
    (data.stakers.map fun st =>
      pushSome (mkDepositRecord st.id) (st.deposits.filter (matchesStETHStrategy cfg))).flatten

/-! ## Operator normalizer (`DataFetcher.transformValidatorData`,
part_000 209-263) -/

/-- A raw slashing event; `amount` is the base-unit amount, modelled numeric
(this loop has no try/catch, so its `fromWei` is assumed well-formed). -/
structure RawSlashing where
  operator : String
  amount : Nat
  createdAt : Nat
  transactionHash : String
  blockNumber : Nat
deriving DecidableEq, Repr

/-- A raw operator record; `totalShares` stays an optional string: absent
(`|| "0"`-defaulted) or possibly non-numeric. -/
structure RawOperator where
  id : String
  metadataURI : String
  totalShares : Option String
  createdAt : Nat
  blockNumber : Nat
  transactionHash : String
deriving DecidableEq, Repr

/-- The two result sets of the operator query (absent sets modelled as `[]`). -/
structure RawValidatorData where
  operators : List RawOperator
  slashings : List RawSlashing
deriving DecidableEq, Repr

/-- The slash event pushed into the slashing map for one raw slashing. -/
def mkSlashEvent (s : RawSlashing) : SlashEvent :=
  { timestamp := s.createdAt
    amountStETH := fromWeiQ s.amount
    reason := "Protocol violation"
    transactionHash := s.transactionHash
    blockNumber := s.blockNumber }

/-- `if (!map.has(k)) map.set(k, []); map.get(k).push(e)` on an insertion-order
association list. -/
def mapAppend : List (String × List SlashEvent) → String → SlashEvent →
    List (String × List SlashEvent)
  | [], op, e => [(op, [e])]
  | (k, es) :: rest, op, e =>
    if k = op then (k, es ++ [e]) :: rest else (k, es) :: mapAppend rest op e

/-- The `slashingMap` built by the first loop of `transformValidatorData`. -/
def buildSlashingMap (slashes : List RawSlashing) :
    List (String × List SlashEvent) :=
  slashes.foldl (fun m s => mapAppend m s.operator (mkSlashEvent s)) []

/-- `slashingMap.get(op) || []`. -/
def lookupSlashMap (m : List (String × List SlashEvent)) (op : String) :
    List SlashEvent :=
  ((m.find? fun kv => kv.1 = op).map Prod.snd).getD []

/-- The per-operator loop body of `transformValidatorData`: fails (is
skipped) exactly when `fromWei(operator.totalShares || "0")` throws; `now`
models `new Date()` for `lastActivityTimestamp`. -/
def processOperator (smap : List (String × List SlashEvent)) (now : Nat)
    (op : RawOperator) : Option Validator :=
  (weiParse (op.totalShares.getD ("0"))).map fun n =>
    let hist := lookupSlashMap smap op.id
    { operatorAddress := op.id
      totalDelegatedStakeStETH := fromWeiQ n
      slashHistory := hist
      status := if 0 < hist.length then VStatus.slashed else VStatus.active
      registrationTimestamp := op.createdAt * 1000
      lastActivityTimestamp := now
      delegatorCount := 0
      commission := 0
      metadataURI := op.metadataURI }

/-- `DataFetcher.transformValidatorData(data)` (part_000 209-263). -/
def transformValidatorData (data : RawValidatorData) (now : Nat) :
    List Validator :=
  pushSome (processOperator (buildSlashingMap data.slashings) now) data.operators

/-! ## Paged queries (`DataFetcher.fetchValidatorData`, part_000 168-207) -/

/-- A `first`/`skip` page selection in a subgraph query. -/
structure PageParams where
  first : Nat
  skip : Nat
deriving DecidableEq, Repr

/-- The page the `operators` selection of `fetchValidatorData`'s query text
requests: parameterised by `$first` and `$skip`. -/
def validatorQueryOperatorsPage (first skip : Nat) : PageParams :=
  { first := first, skip := skip }

/-- The page the `slashings` selection of `fetchValidatorData`'s query text
requests: written literally as `first: 100` with no `skip`, whatever the
function's arguments are. -/
def validatorQuerySlashingsPage (_first _skip : Nat) : PageParams :=
  { first := 100, skip := 0 }

/-- Subgraph paging semantics over a full result set already ordered by
`createdAt desc` (the query's fixed ordering): `skip` then `first`. -/
def pageOf {α : Type} (l : List α) (p : PageParams) : List α :=
  (l.drop p.skip).take p.first

/-- `DataFetcher.fetchValidatorData(first, skip)` against an upstream holding
the full createdAt-descending operator and slashing result sets: requests the
two selections with the pages fixed by the query text, then transforms the
response.  (The retry wrapper is the identity on a successful upstream; it is
modelled separately by `retryOperation`.) -/
def fetchValidatorData (first skip : Nat) (allOperators : List RawOperator)
    (allSlashings : List RawSlashing) (now : Nat) : List Validator :=
  transformValidatorData
    { operators := pageOf allOperators (validatorQueryOperatorsPage first skip)
      slashings := pageOf allSlashings (validatorQuerySlashingsPage first skip) }
    now

/-! ## Cross-entity statistics pass (`DatabasePopulator.updateStatistics`,
fetchData.js 166-220) -/

/-- `Restaker.countDocuments({ targetAVSOperatorAddress: a })`. -/
def countDelegators (restakers : List Restaker) (a : String) : Nat :=
  (restakers.filter fun r => r.targetAVSOperatorAddress = a).length

/-- The delegator-count pass of `updateStatistics`: recompute every
validator's `delegatorCount` from the persisted restakers and write the
document back only when the stored count differs.  Returns the validators
after the pass together with the list of documents written back
(`validator.save()` calls). -/
def updateStatistics (validators : List Validator) (restakers : List Restaker) :
    List Validator × List Validator :=
  validators.foldl
    (fun acc v =>
      let c := countDelegators restakers v.operatorAddress
      if v.delegatorCount ≠ c then
        (acc.1 ++ [{ v with delegatorCount := c }],
         acc.2 ++ [{ v with delegatorCount := c }])
      else (acc.1 ++ [v], acc.2))
    ([], [])

/-! ## Retry executor (`DataFetcher.retryOperation`, part_000 20-33) -/

deriving instance DecidableEq for Except

/-- The observable outcome of a `retryOperation` run: the returned or thrown
value (`none` models the `undefined` return when `maxRetries = 0` and the
loop body never runs), the number of invocations of `operation`, and the
sequence of backoff waits issued (milliseconds). -/
structure RetryTrace (E A : Type) where
  result : Option (Except E A)
  calls : Nat
  delays : List Nat
deriving DecidableEq, Repr

/-- The `for` loop of `retryOperation` from attempt number `attempt` with
`remaining` iterations left; `op i` is the outcome of the i-th invocation of
`operation`, and `delayMs` is `this.retryDelay`. -/
def retryFrom {E A : Type} (op : Nat → Except E A) (delayMs : Nat) :
    Nat → Nat → RetryTrace E A
  | _, 0 => { result := none, calls := 0, delays := [] }
  | attempt, remaining + 1 =>
    match op attempt with
    | Except.ok a => { result := some (Except.ok a), calls := 1, delays := [] }
    | Except.error e =>
      if remaining = 0 then
        { result := some (Except.error e), calls := 1, delays := [] }
      else
        let rest := retryFrom op delayMs (attempt + 1) remaining
        { result := rest.result
          calls := rest.calls + 1
          delays := delayMs * attempt :: rest.delays }

/-- `DataFetcher.retryOperation(operation, maxRetries)` (part_000 20-33). -/
def retryOperation {E A : Type} (op : Nat → Except E A)
    (maxRetries delayMs : Nat) : RetryTrace E A :=
  retryFrom op delayMs 1 maxRetries

/-! ## Rewards-service client (`DataFetcher.fetchRewardsFromRated`,
part_000 265-299) -/

/-- What one HTTP GET against a candidate endpoint can observe: a response
(whose body may be JSON-falsy, `ok none`) or a thrown request error such as
an HTTP 404 (`fail status`). -/
inductive EndpointResult where
  | ok : Option RatedBody → EndpointResult
  | fail : Nat → EndpointResult
deriving DecidableEq, Repr

/-- An endpoint attempt that does not yield a truthy body: a thrown error or
a falsy `response.data`. -/
def noBody : EndpointResult → Bool
  | EndpointResult.ok (some _) => false
  | _ => true

/-- The ordered candidate endpoint paths `fetchRewardsFromRated` tries. -/
def ratedEndpoints (address : String) : List String :=
  ["/v1/eigenlayer/rewards/delegator/" ++ address,
   "/v1/eigenlayer/rewards/rewards?delegator=" ++ address]

/-- The `for (const endpoint of endpoints)` loop: stop at the first endpoint
whose response has a truthy body and return its transform; count every HTTP
request issued. -/
def fetchGo (upstream : String → EndpointResult) (address : String) (now : Nat) :
    List String → Nat → Option Reward × Nat
  | [], n => (none, n)
  | e :: rest, n =>
    match upstream e with
    | EndpointResult.ok (some body) =>
      (some (transformRatedRewardsData body address now), n + 1)
    | _ => fetchGo upstream address now rest (n + 1)

/-- `DataFetcher.fetchRewardsFromRated(address)` (part_000 265-299): `apiKey`
models `process.env.RATED_API_KEY` (`none` when unset), `upstream` the
rewards service's behavior per endpoint path.  The second component counts
HTTP requests issued. -/
def fetchRewardsFromRated (apiKey : Option String)
    (upstream : String → EndpointResult) (address : String) (now : Nat) :
    Option Reward × Nat :=
  match apiKey with
  | none => (none, 0)
  | some _ => fetchGo upstream address now (ratedEndpoints address) 0

/-! ## Address validation (`DataFetcher.isValidAddress`, part_000 464-467) -/

/-- A hexadecimal digit of either case. -/
def isHexDigitChar (c : Char) : Bool :=
  ('0' ≤ c && c ≤ '9') || ('a' ≤ c && c ≤ 'f') || ('A' ≤ c && c ≤ 'F')

/-- Modelled from the spec: `isValidAddress` returns
`web3.utils.isAddress(address)`, a web3 dependency function whose source is
not part of this repository; the spec fixes its contract as the format check
"`0x` + 40 hex digits, case-insensitive". -/
def isValidAddress (s : String) : Bool :=
  match s.data with
  | c1 :: c2 :: rest =>
    c1 = '0' && c2 = 'x' && rest.length = 40 && rest.all isHexDigitChar
  | _ => false

/-! ## Fixed-point conversion (`DataFetcher.toWei` / `fromWei`,
part_000 469-477) -/

/-- Value of a big-endian base-10 digit list. -/
def ofDigitsBE : List Nat → Nat
  | [] => 0
  | d :: rest => d * 10 ^ rest.length + ofDigitsBE rest

/-- The `k` big-endian base-10 digits of `r < 10^k`. -/
def digitsBE : Nat → Nat → List Nat
  | 0, _ => []
  | k + 1, r => r / 10 ^ k :: digitsBE k (r % 10 ^ k)

/-- Drop trailing zeros. -/
def trimZeros (l : List Nat) : List Nat :=
  (l.reverse.dropWhile fun d => d = 0).reverse

/-- Modelled from the spec: a valid nonnegative decimal amount string — an
integer part and a big-endian list of fraction digits.  `toWei`/`fromWei`
delegate to `web3.utils`, a dependency not under the repository's source;
the spec fixes their contract as exact 18-decimal fixed-point conversion. -/
structure DecimalAmount where
  intPart : Nat
  fracDigits : List Nat
deriving DecidableEq, Repr

/-- A well-formed decimal string: at most 18 fraction digits, each < 10. -/
def DecimalAmount.wf (d : DecimalAmount) : Prop :=
  d.fracDigits.length ≤ 18 ∧ ∀ x ∈ d.fracDigits, x < 10

/-- Modelled from the spec: `toWei(d, "ether")` — the base-unit integer
`d * 10^18`. -/
def toWei (d : DecimalAmount) : Nat :=
  d.intPart * 10 ^ 18 +
    ofDigitsBE (d.fracDigits ++ List.replicate (18 - d.fracDigits.length) 0)

/-- Modelled from the spec: `fromWei(n, "ether")` — integer part and the 18
base-10 fraction digits with trailing zeros trimmed. -/
def fromWei (n : Nat) : DecimalAmount :=
  { intPart := n / 10 ^ 18, fracDigits := trimZeros (digitsBE 18 (n % 10 ^ 18)) }

/-- Trailing-zero normalization of a decimal string. -/
def DecimalAmount.normalize (d : DecimalAmount) : DecimalAmount :=
  { intPart := d.intPart, fracDigits := trimZeros d.fracDigits }

/-! ## Concrete instances used by witnesses and counterexamples -/

/-- A 40-hex-digit operator address. -/
def opAddrA : String := "0x1111111111111111111111111111111111111111"

/-- A second operator address. -/
def opAddrB : String := "0x2222222222222222222222222222222222222222"

/-- A wallet address. -/
def walletA : String := "0xaaaaaaaaaaaaaaaaaaaaaaaaaaaaaaaaaaaaaaaa"

/-- A rewards-service item paying `n` wei, attributed to `opAddrA`. -/
def sampleItem (n : Nat) : RawRewardItem :=
  { amount := some n
    value := none
    operator := some opAddrA
    validator := none
    timestamp := some 1700000000
    block_time := none
    tx_hash := none
    block_number := none }

/-- A stored RewardRecord for `walletA`: total 10 stETH, all from `opAddrA`. -/
def storedReward : Reward :=
  { walletAddress := walletA
    totalRewardsReceivedStETH := 10
    rewardsBreakdown :=
      [{ operatorAddress := opAddrA
         amountStETH := 10
         timestamps := [100, 200]
         transactionHashes := []
         blockNumbers := [] }] }

/-- An incoming normalized payload for `walletA`: total 5 stETH from
`opAddrA`. -/
def incomingReward : Reward :=
  { walletAddress := walletA
    totalRewardsReceivedStETH := 5
    rewardsBreakdown :=
      [{ operatorAddress := opAddrA
         amountStETH := 5
         timestamps := [300]
         transactionHashes := []
         blockNumbers := [] }] }

/-- A raw delegation event with the given delegator and `shares` string. -/
def mkRawDelegation (u : String) (sh : String) : RawDelegation :=
  { delegator := u
    operator := opAddrA
    shares := sh
    createdAt := 1700000000
    transactionHash := "0xd0"
    blockNumber := 1 }

/-- Five raw delegation events; the third has a non-numeric `shares` field. -/
def fiveEventBatch : List RawDelegation :=
  [mkRawDelegation ("0xe1") ("1000000000000000000"),
   mkRawDelegation ("0xe2") ("2000000000000000000"),
   mkRawDelegation ("0xe3") ("not-a-number"),
   mkRawDelegation ("0xe4") ("4000000000000000000"),
   mkRawDelegation ("0xe5") ("5000000000000000000")]

/-- An operation that fails on its first invocation and succeeds on the
second. -/
def sampleOp : Nat → Except Nat Nat :=
  fun i => if i = 1 then Except.error 7 else Except.ok 42

/-- A rewards-service body holding one 1-ether reward item. -/
def sampleBody : RatedBody := { rewards := some [sampleItem (10 ^ 18)] }

/-- A rewards service whose primary delegator endpoint throws HTTP 404 and
whose other endpoints answer with `sampleBody`. -/
def flaky404 : String → EndpointResult := fun e =>
  if e = "/v1/eigenlayer/rewards/delegator/" ++ walletA then EndpointResult.fail 404
  else EndpointResult.ok (some sampleBody)

/-- A raw slashing event against `opAddrA`. -/
def sampleSlashing : RawSlashing :=
  { operator := opAddrA
    amount := 5 * 10 ^ 17
    createdAt := 1690000000
    transactionHash := "0xb0"
    blockNumber := 2 }

/-- A raw operator record for `opAddrA` with no `totalShares` field. -/
def sampleOperatorRaw : RawOperator :=
  { id := opAddrA
    metadataURI := "ipfs://x"
    totalShares := none
    createdAt := 1680000000
    blockNumber := 3
    transactionHash := "0xf0" }

/-- An upstream response with one operator and one slashing event. -/
def sampleValidatorData : RawValidatorData :=
  { operators := [sampleOperatorRaw], slashings := [sampleSlashing] }

/-- A restaker delegating 1 stETH to `target`. -/
def sampleRestaker (u : String) (target : String) : Restaker :=
  { userAddress := u
    amountRestakedStETH := 1
    targetAVSOperatorAddress := target
    delegationTimestamp := 0
    transactionHash := "0xc0"
    blockNumber := 4
    status := RStatus.active }

/-- A stored validator for `opAddrA` whose `delegatorCount` is stale. -/
def sampleValidator : Validator :=
  { operatorAddress := opAddrA
    totalDelegatedStakeStETH := 2
    slashHistory := []
    status := VStatus.active
    registrationTimestamp := 0
    lastActivityTimestamp := 0
    delegatorCount := 7
    commission := 0
    metadataURI := "" }

/-- The stored restakers used by the statistics-pass witness: two delegate to
`opAddrA`, one to `opAddrB`. -/
def sampleRestakers : List Restaker :=
  [sampleRestaker ("0xe1") opAddrA,
   sampleRestaker ("0xe2") opAddrA,
   sampleRestaker ("0xe3") opAddrB]

/-- 101 raw slashing events, one more than the hard-coded page size. -/
def manySlashings : List RawSlashing := List.replicate 101 sampleSlashing

/-- The validator `transformValidatorData` produces from
`sampleValidatorData`. -/
def sampleProcessed : Validator :=
  { operatorAddress := opAddrA
    totalDelegatedStakeStETH := 0
    slashHistory := [mkSlashEvent sampleSlashing]
    status := VStatus.slashed
    registrationTimestamp := 1680000000 * 1000
    lastActivityTimestamp := 0
    delegatorCount := 0
    commission := 0
    metadataURI := "ipfs://x" }

/-- The validator `fetchValidatorData` produces from one operator and the
101-event slashing set: only 100 slash events survive the fixed page. -/
def sampleFetched : Validator :=
  { sampleProcessed with
    slashHistory := List.replicate 100 (mkSlashEvent sampleSlashing) }

/-- The decimal string "1.5". -/
def sampleDecimal : DecimalAmount := { intPart := 1, fracDigits := [5] }

/-! ## Theorems -/

/-- Folding the push-if-some loop body onto an accumulator appends the
`filterMap` of the rest. -/
theorem pushSome_go {α β : Type} (f : α → Option β) (l : List α) (acc : List β) :
    l.foldl (fun acc a => match f a with | some b => acc ++ [b] | none => acc) acc
      = acc ++ l.filterMap f := by
  induction l generalizing acc with
  | nil => simp
  | cons a l ih =>
    cases h : f a with
    | none => simp [List.foldl_cons, h, ih, List.filterMap_cons]
    | some b => simp [List.foldl_cons, h, ih, List.filterMap_cons]

/-- The skip-on-failure push loop is `filterMap`. -/
theorem pushSome_eq_filterMap {α β : Type} (f : α → Option β) (l : List α) :
    pushSome f l = l.filterMap f := by
  simpa [pushSome] using pushSome_go f l []

/-- C4: `isValidAddress` returns true for exactly the strings made of the
two-character `0x` head followed by 40 hexadecimal digits of either case, and
false for every other string (wrong length, wrong head, non-hex characters).
(spec-modelled: the web3 implementation it delegates to is not part of this
repository.) -/
theorem C4_isValidAddress (s : String) :
    isValidAddress s = true ↔
      s.length = 42 ∧ s.data.take 2 = ['0', 'x'] ∧
        ∀ c ∈ s.data.drop 2,
          ('0' ≤ c ∧ c ≤ '9') ∨ ('a' ≤ c ∧ c ≤ 'f') ∨ ('A' ≤ c ∧ c ≤ 'F') := by
  obtain ⟨data⟩ := s
  match data with
  | [] => simp [isValidAddress, String.length]
  | [c] => simp [isValidAddress, String.length]
  | c1 :: c2 :: rest =>
    simp only [isValidAddress, String.length, List.length_cons, List.take,
      List.drop, Bool.and_eq_true, decide_eq_true_eq, List.all_eq_true,
      isHexDigitChar, Bool.or_eq_true, List.cons.injEq, and_true]
    constructor
    · rintro ⟨⟨⟨h0, hx⟩, hlen⟩, hhex⟩
      exact ⟨by omega, ⟨h0, hx⟩, fun c hc => by simpa [or_assoc] using hhex c hc⟩
    · rintro ⟨hlen, ⟨h0, hx⟩, hhex⟩
      exact ⟨⟨⟨h0, hx⟩, by omega⟩, fun c hc => by simpa [or_assoc] using hhex c hc⟩

/-- `filterMap` keeps exactly the items on which the transform succeeds. -/
theorem length_filterMap_eq {α β : Type} (f : α → Option β) (l : List α) :
    (l.filterMap f).length = (l.filter fun a => (f a).isSome).length := by
  induction l with
  | nil => rfl
  | cons a l ih => cases h : f a <;> simp [List.filterMap_cons, List.filter_cons, h, ih]

/-- The per-delegation transform succeeds exactly when the `shares` field
parses. -/
theorem mkDelegationRecord_isSome (d : RawDelegation) :
    (mkDelegationRecord d).isSome = (weiParse d.shares).isSome := by
  simp [mkDelegationRecord]

/-- C5: per-item fault isolation of the delegation normalizer: on a batch of
raw delegation events, `transformRestakingData` produces one DelegationRecord
per well-formed event, and a malformed event (unparsable `shares`) contributes
nothing to the output sequence — the transform is total, so no exception
escapes; in particular, a 5-event batch whose third event has a non-numeric
`shares` field yields exactly 4 DelegationRecords. -/
theorem C5_faultIsolation :
    (∀ (cfg : Option String) (ds : List RawDelegation),
        transformRestakingData cfg { delegations := ds, stakers := [] }
            = ds.filterMap mkDelegationRecord
          ∧ (transformRestakingData cfg { delegations := ds, stakers := [] }).length
              = (ds.filter fun d => (weiParse d.shares).isSome).length)
    ∧ (transformRestakingData none
        { delegations := fiveEventBatch, stakers := [] }).length = 4 := by
  constructor
  · intro cfg ds
    constructor
    · simp [transformRestakingData, pushSome_eq_filterMap]
    · simp [transformRestakingData, pushSome_eq_filterMap, length_filterMap_eq,
        mkDelegationRecord_isSome]
  · decide

/-- The retry loop never runs more iterations than it has left. -/
theorem retryFrom_calls_le {E A : Type} (op : Nat → Except E A) (d : Nat)
    (remaining attempt : Nat) :
    (retryFrom op d attempt remaining).calls ≤ remaining := by
  induction remaining generalizing attempt with
  | zero => simp [retryFrom]
  | succ r ih =>
    rw [retryFrom]
    cases op attempt with
    | ok a => simp
    | error e =>
      by_cases hr : r = 0
      · simp [hr]
      · simpa [hr] using ih (attempt + 1)

/-- If every attempt before `k` fails and attempt `k` succeeds within the
remaining budget, the retry loop stops at `k`, returning its value, having
waited `d * i` after each earlier attempt `i`. -/
theorem retryFrom_success {E A : Type} (op : Nat → Except E A) (d : Nat)
    (remaining attempt k : Nat) (a : A)
    (hlo : attempt ≤ k) (hhi : k < attempt + remaining)
    (hk : op k = Except.ok a)
    (hfail : ∀ i, attempt ≤ i → i < k → ∃ e, op i = Except.error e) :
    retryFrom op d attempt remaining
      = { result := some (Except.ok a), calls := k + 1 - attempt,
          delays := (List.range' attempt (k - attempt)).map fun i => d * i } := by
  induction remaining generalizing attempt with
  | zero => omega
  | succ r ih =>
    by_cases hak : attempt = k
    · subst hak
      simp [retryFrom, hk]
    · have hlt : attempt < k := by omega
      obtain ⟨e, he⟩ := hfail attempt le_rfl hlt
      have hr : r ≠ 0 := by omega
      simp only [retryFrom, he]
      rw [if_neg hr]
      rw [ih (attempt + 1) (by omega) (by omega)
        (fun i h1 h2 => hfail i (by omega) h2)]
      obtain ⟨m, hm⟩ : ∃ m, k - attempt = m + 1 := ⟨k - attempt - 1, by omega⟩
      have hm' : k - (attempt + 1) = m := by omega
      simp only [hm, hm', List.range', List.map_cons, RetryTrace.mk.injEq]
      exact ⟨trivial, by omega, trivial⟩

/-- If every attempt in the remaining budget fails, the retry loop makes all
of them, waits after each non-final one, and rethrows the error of the last
attempt unchanged. -/
theorem retryFrom_allFail {E A : Type} (op : Nat → Except E A) (d : Nat)
    (remaining attempt : Nat) (h1 : 1 ≤ remaining)
    (hfail : ∀ i, attempt ≤ i → i < attempt + remaining → ∃ e, op i = Except.error e) :
    ∃ e, op (attempt + remaining - 1) = Except.error e ∧
      retryFrom op d attempt remaining
        = { result := some (Except.error e), calls := remaining,
            delays := (List.range' attempt (remaining - 1)).map fun i => d * i } := by
  induction remaining generalizing attempt with
  | zero => omega
  | succ r ih =>
    obtain ⟨e, he⟩ := hfail attempt le_rfl (by omega)
    by_cases hr : r = 0
    · subst hr
      refine ⟨e, by simpa using he, ?_⟩
      simp [retryFrom, he]
    · obtain ⟨e', he', heq⟩ := ih (attempt + 1) (by omega)
        (fun i ha hb => hfail i (by omega) (by omega))
      have harith : attempt + 1 + r - 1 = attempt + (r + 1) - 1 := by omega
      rw [harith] at he'
      refine ⟨e', he', ?_⟩
      simp only [retryFrom, he]
      rw [if_neg hr]
      rw [heq]
      obtain ⟨m, hm⟩ : ∃ m, r = m + 1 := ⟨r - 1, by omega⟩
      subst hm
      simp only [Nat.add_sub_cancel, List.range', List.map_cons,
        RetryTrace.mk.injEq]

/-- C6: `retryOperation` invokes the operation at most `maxRetries` times;
it returns the value of the first successful invocation, having waited
`retryDelay * attemptNumber` after each failed non-final attempt (linear
backoff); and when every attempt fails, it makes exactly `maxRetries`
invocations and rethrows the last attempt's error unchanged. -/
theorem C6_retryOperation {E A : Type} (op : Nat → Except E A)
    (maxRetries delayMs : Nat) (hmax : 1 ≤ maxRetries) :
    (retryOperation op maxRetries delayMs).calls ≤ maxRetries
  ∧ (∀ k a, 1 ≤ k → k ≤ maxRetries → op k = Except.ok a →
      (∀ i, 1 ≤ i → i < k → ∃ e, op i = Except.error e) →
      retryOperation op maxRetries delayMs
        = { result := some (Except.ok a), calls := k,
            delays := (List.range' 1 (k - 1)).map fun i => delayMs * i })
  ∧ ((∀ i, 1 ≤ i → i ≤ maxRetries → ∃ e, op i = Except.error e) →
      ∃ e, op maxRetries = Except.error e ∧
        retryOperation op maxRetries delayMs
          = { result := some (Except.error e), calls := maxRetries,
              delays := (List.range' 1 (maxRetries - 1)).map fun i => delayMs * i }) := by
  refine ⟨retryFrom_calls_le op delayMs maxRetries 1, ?_, ?_⟩
  · intro k a hk1 hkmax hok hfail
    have h := retryFrom_success op delayMs maxRetries 1 k a hk1 (by omega) hok
      (fun i h1 h2 => hfail i h1 h2)
    rw [retryOperation, h]
    have : k + 1 - 1 = k := by omega
    rw [this]
  · intro hfail
    obtain ⟨e, he, heq⟩ := retryFrom_allFail op delayMs maxRetries 1 hmax
      (fun i h1 h2 => hfail i h1 (by omega))
    refine ⟨e, ?_, ?_⟩
    · have : 1 + maxRetries - 1 = maxRetries := by omega
      rw [← this]; exact he
    · rw [retryOperation, heq]

/-- Witness for C6 at a concrete operation: `sampleOp` fails on attempt 1 and
succeeds on attempt 2, so with 3 allowed attempts and a 5 ms base delay the
executor returns `42` after 2 invocations and a single 5 ms wait. -/
theorem C6_retryOperation_witness :
    retryOperation sampleOp 3 5
      = { result := some (Except.ok 42), calls := 2, delays := [5] } := by
  have h := (C6_retryOperation sampleOp 3 5 (by decide)).2.1 2 42 (by decide)
    (by decide) (by decide)
    (fun i h1 h2 => by
      have : i = 1 := by omega
      subst this
      exact ⟨7, rfl⟩)
  rw [h]
  decide

/-- The endpoint loop returns the transform of the first endpoint answering
with a truthy body, after one HTTP call per endpoint tried. -/
theorem fetchGo_found (upstream : String → EndpointResult) (address : String)
    (now : Nat) (pre : List String) (mid : String) (post : List String)
    (body : RatedBody) (n : Nat)
    (hpre : ∀ e ∈ pre, noBody (upstream e) = true)
    (hmid : upstream mid = EndpointResult.ok (some body)) :
    fetchGo upstream address now (pre ++ mid :: post) n
      = (some (transformRatedRewardsData body address now), n + pre.length + 1) := by
  induction pre generalizing n with
  | nil => simp [fetchGo, hmid]
  | cons e pre ih =>
    have he := hpre e (List.mem_cons_self e pre)
    have htail : ∀ x ∈ pre, noBody (upstream x) = true :=
      fun x hx => hpre x (List.mem_cons_of_mem e hx)
    cases hu : upstream e with
    | ok ob =>
      cases ob with
      | some b => rw [hu] at he; simp [noBody] at he
      | none =>
        simp only [List.cons_append, fetchGo, hu, List.append_eq]
        rw [ih (n + 1) htail]
        simp only [List.length_cons, Prod.mk.injEq, true_and]
        omega
    | fail s =>
      simp only [List.cons_append, fetchGo, hu, List.append_eq]
      rw [ih (n + 1) htail]
      simp only [List.length_cons, Prod.mk.injEq, true_and]
      omega

/-- When no endpoint yields a truthy body, the loop falls through: one HTTP
call per endpoint and a `null` result. -/
theorem fetchGo_exhausted (upstream : String → EndpointResult) (address : String)
    (now : Nat) (l : List String) (n : Nat)
    (h : ∀ e ∈ l, noBody (upstream e) = true) :
    fetchGo upstream address now l n = (none, n + l.length) := by
  induction l generalizing n with
  | nil => simp [fetchGo]
  | cons e l ih =>
    have he := h e (List.mem_cons_self e l)
    have htail : ∀ x ∈ l, noBody (upstream x) = true :=
      fun x hx => h x (List.mem_cons_of_mem e hx)
    cases hu : upstream e with
    | ok ob =>
      cases ob with
      | some b => rw [hu] at he; simp [noBody] at he
      | none =>
        simp only [fetchGo, hu]
        rw [ih (n + 1) htail]
        simp only [List.length_cons, Prod.mk.injEq, true_and]
        omega
    | fail s =>
      simp only [fetchGo, hu]
      rw [ih (n + 1) htail]
      simp only [List.length_cons, Prod.mk.injEq, true_and]
      omega

/-- C7: `fetchRewardsFromRated` returns `null` after zero HTTP calls when no
API credential is configured; otherwise it tries the candidate endpoints in
their listed order and returns the normalized data of the first endpoint
answering with a truthy body (so a 404 on the primary endpoint falls through
to the secondary); and when every endpoint fails it returns `null` rather
than throwing. -/
theorem C7_fetchRewards (apiKey : String)
    (upstream : String → EndpointResult) (address : String) (now : Nat) :
    fetchRewardsFromRated none upstream address now = (none, 0)
  ∧ (∀ pre mid post body, ratedEndpoints address = pre ++ mid :: post →
      (∀ e ∈ pre, noBody (upstream e) = true) →
      upstream mid = EndpointResult.ok (some body) →
      fetchRewardsFromRated (some apiKey) upstream address now
        = (some (transformRatedRewardsData body address now), pre.length + 1))
  ∧ ((∀ e ∈ ratedEndpoints address, noBody (upstream e) = true) →
      fetchRewardsFromRated (some apiKey) upstream address now = (none, 2)) := by
  refine ⟨rfl, ?_, ?_⟩
  · intro pre mid post body hsplit hpre hmid
    simp only [fetchRewardsFromRated, hsplit]
    rw [fetchGo_found upstream address now pre mid post body 0 hpre hmid]
    simp
  · intro h
    simp only [fetchRewardsFromRated]
    rw [fetchGo_exhausted upstream address now (ratedEndpoints address) 0 h]
    rfl

/-- Witness for C7 at a concrete service: against `flaky404` — whose primary
delegator endpoint throws HTTP 404 while the secondary answers with
`sampleBody` — an authenticated `fetchRewardsFromRated` returns the
secondary's normalized data after two HTTP calls. -/
theorem C7_fetchRewards_witness :
    fetchRewardsFromRated (some ("key")) flaky404 walletA 0
      = (some (transformRatedRewardsData sampleBody walletA 0), 2) := by
  have h := (C7_fetchRewards ("key") flaky404 walletA 0).2.1
    ["/v1/eigenlayer/rewards/delegator/" ++ walletA]
    ("/v1/eigenlayer/rewards/rewards?delegator=" ++ walletA) [] sampleBody
    (by decide) (by decide) (by decide)
  rw [h]
  rfl

/-- Re-filling `delegatorCount` with its current value is the identity. -/
theorem validator_count_eta (v : Validator) :
    { v with delegatorCount := v.delegatorCount } = v := rfl

/-- The statistics-pass fold: the first component collects every validator
with its recomputed count, the second exactly those whose stored count
differed. -/
theorem updateStatistics_go (rs : List Restaker) (vs : List Validator)
    (acc1 acc2 : List Validator) :
    vs.foldl
      (fun acc v =>
        let c := countDelegators rs v.operatorAddress
        if v.delegatorCount ≠ c then
          (acc.1 ++ [{ v with delegatorCount := c }],
           acc.2 ++ [{ v with delegatorCount := c }])
        else (acc.1 ++ [v], acc.2))
      (acc1, acc2)
      = (acc1 ++ vs.map
            (fun v => { v with delegatorCount := countDelegators rs v.operatorAddress }),
         acc2 ++ (vs.filter fun v =>
              v.delegatorCount ≠ countDelegators rs v.operatorAddress).map
            (fun v => { v with delegatorCount := countDelegators rs v.operatorAddress })) := by
  induction vs generalizing acc1 acc2 with
  | nil => simp
  | cons v vs ih =>
    simp only [List.foldl_cons, List.map_cons, List.filter_cons]
    by_cases h : v.delegatorCount = countDelegators rs v.operatorAddress
    · rw [if_neg (by simpa using h)]
      rw [ih]
      simp only [h, validator_count_eta, decide_not]
      rw [← h, validator_count_eta]
      simp
    · rw [if_pos (by simpa using h)]
      rw [ih]
      simp [h]

/-- C3: after the statistics pass, every validator carries exactly the count
of persisted restakers whose `targetAVSOperatorAddress` equals its
`operatorAddress`, and the documents written back during the pass are exactly
those whose stored count differed from the recomputed one. -/
theorem C3_delegatorCounts (vs : List Validator) (rs : List Restaker)
    (v : Validator) (hv : v ∈ (updateStatistics vs rs).1) :
    v.delegatorCount = countDelegators rs v.operatorAddress
  ∧ (updateStatistics vs rs).2
      = (vs.filter fun w =>
            w.delegatorCount ≠ countDelegators rs w.operatorAddress).map
          (fun w => { w with delegatorCount := countDelegators rs w.operatorAddress }) := by
  have hchar := updateStatistics_go rs vs [] []
  constructor
  · have h1 : (updateStatistics vs rs).1
        = vs.map (fun w =>
            { w with delegatorCount := countDelegators rs w.operatorAddress }) := by
      simpa [updateStatistics] using congrArg Prod.fst hchar
    rw [h1] at hv
    obtain ⟨w, hw, rfl⟩ := List.mem_map.mp hv
    rfl
  · simpa [updateStatistics] using congrArg Prod.snd hchar

/-- Witness for C3 at a concrete store: `sampleValidator` holds a stale count
of 7 while two of `sampleRestakers` target it, so the pass rewrites it to 2
and writes exactly that one document back. -/
theorem C3_delegatorCounts_witness :
    ({ sampleValidator with delegatorCount := 2 }).delegatorCount
        = countDelegators sampleRestakers
            ({ sampleValidator with delegatorCount := 2 }).operatorAddress
  ∧ (updateStatistics [sampleValidator] sampleRestakers).2
      = ([sampleValidator].filter fun w =>
            w.delegatorCount ≠ countDelegators sampleRestakers w.operatorAddress).map
          (fun w =>
            { w with delegatorCount := countDelegators sampleRestakers w.operatorAddress }) :=
  C3_delegatorCounts [sampleValidator] sampleRestakers
    { sampleValidator with delegatorCount := 2 } (by decide)

/-- One map insertion appends the event to the inserted key's list and leaves
every other key's list unchanged. -/
theorem lookupSlashMap_mapAppend (m : List (String × List SlashEvent))
    (k : String) (e : SlashEvent) (op : String) :
    lookupSlashMap (mapAppend m k e) op
      = if k = op then lookupSlashMap m op ++ [e] else lookupSlashMap m op := by
  induction m with
  | nil => by_cases h : k = op <;> simp [mapAppend, lookupSlashMap, List.find?, h]
  | cons kv m ih =>
    obtain ⟨k', es⟩ := kv
    by_cases h1 : k' = k
    · subst h1
      by_cases h2 : k' = op <;>
        simp [mapAppend, lookupSlashMap, List.find?, h2]
    · by_cases h2 : k' = op
      · subst h2
        have hk : ¬k = k' := fun hh => h1 hh.symm
        simp [mapAppend, lookupSlashMap, List.find?, h1, hk]
      · simp only [mapAppend, if_neg h1]
        by_cases h3 : k = op <;>
          simpa [lookupSlashMap, List.find?, h2, h3] using ih

/-- Folding the slashing events into the map from any starting map appends,
per key, exactly the events of that key in order. -/
theorem lookupSlashMap_foldl (slashes : List RawSlashing) (op : String)
    (m : List (String × List SlashEvent)) :
    lookupSlashMap
        (slashes.foldl (fun m s => mapAppend m s.operator (mkSlashEvent s)) m) op
      = lookupSlashMap m op
          ++ (slashes.filter fun s => s.operator = op).map mkSlashEvent := by
  induction slashes generalizing m with
  | nil => simp
  | cons s slashes ih =>
    simp only [List.foldl_cons, List.filter_cons]
    rw [ih, lookupSlashMap_mapAppend]
    by_cases h : s.operator = op
    · simp [h]
    · simp [h]

/-- The slashing map built by `transformValidatorData` holds, for each
operator, exactly its slash events in createdAt-descending order. -/
theorem lookupSlashMap_build (slashes : List RawSlashing) (op : String) :
    lookupSlashMap (buildSlashingMap slashes) op
      = (slashes.filter fun s => s.operator = op).map mkSlashEvent := by
  simpa [buildSlashingMap, lookupSlashMap, List.find?]
    using lookupSlashMap_foldl slashes op []

/-- Inversion of the per-operator loop body: the fields of a produced
validator. -/
theorem processOperator_fields (smap : List (String × List SlashEvent))
    (now : Nat) (op : RawOperator) (v : Validator)
    (h : processOperator smap now op = some v) :
    v.operatorAddress = op.id
  ∧ v.slashHistory = lookupSlashMap smap op.id
  ∧ (v.status = VStatus.slashed ↔ lookupSlashMap smap op.id ≠ [])
  ∧ (v.status = VStatus.active ↔ lookupSlashMap smap op.id = [])
  ∧ (op.totalShares = none → v.totalDelegatedStakeStETH = 0) := by
  unfold processOperator at h
  cases hw : weiParse (op.totalShares.getD ("0")) with
  | none => rw [hw] at h; simp at h
  | some n =>
    rw [hw] at h
    simp only [Option.map_some'] at h
    obtain rfl := Option.some.inj h
    refine ⟨rfl, rfl, ?_, ?_, ?_⟩
    · by_cases hh : lookupSlashMap smap op.id = [] <;>
        simp [hh, List.length_pos, VStatus.slashed, VStatus.active]
    · by_cases hh : lookupSlashMap smap op.id = [] <;>
        simp [hh, List.length_pos]
    · intro hnone
      rw [hnone] at hw
      have : n = 0 := by
        have := hw
        simp [Option.getD, weiParse, digitsValAux, digitVal] at this
        omega
      simp [this, fromWeiQ]

/-- C8: operator normalization marks an operator `slashed` exactly when its
attached slash history is non-empty and `active` otherwise, defaults
`totalDelegatedStake` to 0 when the total-shares field is absent, and
`addSlashEvent` moves an `active` validator to `slashed` while appending the
event. -/
theorem C8_slashedStatus (data : RawValidatorData) (now : Nat)
    (op : RawOperator) (v : Validator) (hop : op ∈ data.operators)
    (hv : processOperator (buildSlashingMap data.slashings) now op = some v) :
    (v.status = VStatus.slashed ↔
        (data.slashings.filter fun s => s.operator = op.id) ≠ [])
  ∧ (v.status = VStatus.active ↔
        (data.slashings.filter fun s => s.operator = op.id) = [])
  ∧ (op.totalShares = none → v.totalDelegatedStakeStETH = 0)
  ∧ v ∈ transformValidatorData data now
  ∧ (∀ (w : Validator) (e : SlashEvent), w.status = VStatus.active →
      (addSlashEvent w e).status = VStatus.slashed
        ∧ (addSlashEvent w e).slashHistory = w.slashHistory ++ [e]) := by
  obtain ⟨haddr, hhist, hsl, hact, hstake⟩ :=
    processOperator_fields (buildSlashingMap data.slashings) now op v hv
  rw [lookupSlashMap_build] at hsl hact
  refine ⟨?_, ?_, hstake, ?_, ?_⟩
  · rw [hsl]
    simp
  · rw [hact]
    simp
  · rw [transformValidatorData, pushSome_eq_filterMap]
    exact List.mem_filterMap.mpr ⟨op, hop, hv⟩
  · intro w e hw
    refine ⟨?_, ?_⟩
    · simp [addSlashEvent, hw]
    · simp [addSlashEvent, hw]

/-- Witness for C8 at a concrete upstream response: `sampleOperatorRaw` has
one slashing event and no total-shares field, so its validator comes out
`slashed` with stake 0. -/
theorem C8_slashedStatus_witness :
    (sampleProcessed.status = VStatus.slashed ↔
        (sampleValidatorData.slashings.filter
          fun s => s.operator = sampleOperatorRaw.id) ≠ [])
  ∧ (sampleProcessed.status = VStatus.active ↔
        (sampleValidatorData.slashings.filter
          fun s => s.operator = sampleOperatorRaw.id) = [])
  ∧ (sampleOperatorRaw.totalShares = none →
        sampleProcessed.totalDelegatedStakeStETH = 0)
  ∧ sampleProcessed ∈ transformValidatorData sampleValidatorData 0
  ∧ (∀ (w : Validator) (e : SlashEvent), w.status = VStatus.active →
      (addSlashEvent w e).status = VStatus.slashed
        ∧ (addSlashEvent w e).slashHistory = w.slashHistory ++ [e]) :=
  C8_slashedStatus sampleValidatorData 0 sampleOperatorRaw sampleProcessed
    (by decide) (by decide)

/-- C10: `fetchValidatorData` requests the slashing result set with the page
`first: 100, skip: 0` regardless of its `first`/`skip` arguments, so every
produced validator's slash history is drawn exclusively from the 100 most
recently created slashing events. -/
theorem C10_slashPageFixed (first skip : Nat) (ops : List RawOperator)
    (slashes : List RawSlashing) (now : Nat) (v : Validator)
    (hv : v ∈ fetchValidatorData first skip ops slashes now) :
    validatorQuerySlashingsPage first skip = { first := 100, skip := 0 }
  ∧ v.slashHistory
      = ((slashes.take 100).filter
          fun s => s.operator = v.operatorAddress).map mkSlashEvent := by
  refine ⟨rfl, ?_⟩
  rw [fetchValidatorData, transformValidatorData, pushSome_eq_filterMap] at hv
  obtain ⟨op, hop, hsome⟩ := List.mem_filterMap.mp hv
  obtain ⟨haddr, hhist, _⟩ := processOperator_fields _ now op v hsome
  rw [hhist, lookupSlashMap_build, haddr]
  simp [pageOf, validatorQuerySlashingsPage]

/-- Witness for C10 at a concrete upstream: 101 slashing events exist, yet
the fetched validator's history holds only the 100 the fixed page returned. -/
theorem C10_slashPageFixed_witness :
    validatorQuerySlashingsPage 10 0 = { first := 100, skip := 0 }
  ∧ sampleFetched.slashHistory
      = ((manySlashings.take 100).filter
          fun s => s.operator = sampleFetched.operatorAddress).map mkSlashEvent :=
  C10_slashPageFixed 10 0 [sampleOperatorRaw] manySlashings 0 sampleFetched
    (by decide)

/-- A big-endian digit list denotes a value below `10 ^ length`. -/
theorem ofDigitsBE_lt (l : List Nat) (h : ∀ x ∈ l, x < 10) :
    ofDigitsBE l < 10 ^ l.length := by
  induction l with
  | nil => simp [ofDigitsBE]
  | cons d rest ih =>
    have hd : d < 10 := h d (List.mem_cons_self d rest)
    have hr := ih fun x hx => h x (List.mem_cons_of_mem d hx)
    simp only [ofDigitsBE, List.length_cons]
    calc d * 10 ^ rest.length + ofDigitsBE rest
        < d * 10 ^ rest.length + 10 ^ rest.length := by omega
      _ = (d + 1) * 10 ^ rest.length := by ring
      _ ≤ 10 * 10 ^ rest.length := Nat.mul_le_mul_right _ (by omega)
      _ = 10 ^ (rest.length + 1) := by ring

/-- Digit extraction inverts digit-list valuation. -/
theorem digitsBE_ofDigitsBE (l : List Nat) (h : ∀ x ∈ l, x < 10) :
    digitsBE l.length (ofDigitsBE l) = l := by
  induction l with
  | nil => rfl
  | cons d rest ih =>
    have hd : d < 10 := h d (List.mem_cons_self d rest)
    have htail : ∀ x ∈ rest, x < 10 := fun x hx => h x (List.mem_cons_of_mem d hx)
    have hlt := ofDigitsBE_lt rest htail
    have hdiv : (d * 10 ^ rest.length + ofDigitsBE rest) / 10 ^ rest.length = d := by
      rw [Nat.mul_comm, Nat.mul_add_div (Nat.pos_pow_of_pos _ (by norm_num))]
      simp [Nat.div_eq_of_lt hlt]
    have hmod : (d * 10 ^ rest.length + ofDigitsBE rest) % 10 ^ rest.length
        = ofDigitsBE rest := by
      rw [Nat.mul_comm, Nat.mul_add_mod]
      exact Nat.mod_eq_of_lt hlt
    simp only [List.length_cons, digitsBE, ofDigitsBE, hdiv, hmod, ih htail]

/-- Appended trailing zeros are invisible to trailing-zero trimming. -/
theorem trimZeros_append_zeros (l : List Nat) (k : Nat) :
    trimZeros (l ++ List.replicate k 0) = trimZeros l := by
  unfold trimZeros
  rw [List.reverse_append, List.reverse_replicate]
  congr 1
  induction k with
  | zero => simp
  | succ k ih => simpa [List.replicate_succ, List.dropWhile] using ih

/-- C9: converting a well-formed decimal amount to base units and back
(`fromWei(toWei(d, "ether"), "ether")`) yields the amount again, modulo
trailing-zero normalization.  (spec-modelled: the web3 conversion functions
are not part of this repository.) -/
theorem C9_roundTrip (d : DecimalAmount) (hwf : d.wf) :
    fromWei (toWei d) = d.normalize := by
  obtain ⟨hlen, hdig⟩ := hwf
  set padded := d.fracDigits ++ List.replicate (18 - d.fracDigits.length) 0
    with hpad
  have hplen : padded.length = 18 := by
    rw [hpad, List.length_append, List.length_replicate]
    omega
  have hpdig : ∀ x ∈ padded, x < 10 := by
    intro x hx
    rcases List.mem_append.mp hx with h | h
    · exact hdig x h
    · have := List.eq_of_mem_replicate h
      omega
  have hvlt : ofDigitsBE padded < 10 ^ 18 := by
    have := ofDigitsBE_lt padded hpdig
    rwa [hplen] at this
  have hdiv : (d.intPart * 10 ^ 18 + ofDigitsBE padded) / 10 ^ 18 = d.intPart := by
    rw [Nat.mul_comm, Nat.mul_add_div (Nat.pos_pow_of_pos _ (by norm_num))]
    have h0 : ofDigitsBE padded / 10 ^ 18 = 0 := Nat.div_eq_of_lt hvlt
    rw [h0]
    omega
  have hmod : (d.intPart * 10 ^ 18 + ofDigitsBE padded) % 10 ^ 18
      = ofDigitsBE padded := by
    rw [Nat.mul_comm, Nat.mul_add_mod]
    exact Nat.mod_eq_of_lt hvlt
  have hdigits : digitsBE 18 (ofDigitsBE padded) = padded := by
    have := digitsBE_ofDigitsBE padded hpdig
    rwa [hplen] at this
  show fromWei (d.intPart * 10 ^ 18 + ofDigitsBE padded) = d.normalize
  unfold fromWei DecimalAmount.normalize
  rw [hdiv, hmod, hdigits, hpad, trimZeros_append_zeros]

/-- Witness for C9 at the concrete decimal "1.5": it is well formed and
survives the base-unit round trip. -/
theorem C9_roundTrip_witness :
    sampleDecimal.wf ∧ fromWei (toWei sampleDecimal) = sampleDecimal.normalize :=
  have hwf : sampleDecimal.wf := ⟨by decide, by decide⟩
  ⟨hwf, C9_roundTrip sampleDecimal hwf⟩

/-- `find?` over a split whose earlier elements all fail the predicate finds
the splitting element. -/
theorem find?_split {α : Type} (p : α → Bool) (pre post : List α) (a : α)
    (hpre : ∀ b ∈ pre, p b = false) (ha : p a = true) :
    (pre ++ a :: post).find? p = some a := by
  induction pre with
  | nil => simp [List.find?, ha]
  | cons x pre ih =>
    have hx := hpre x (List.mem_cons_self x pre)
    simp only [List.cons_append, List.find?, hx]
    exact ih fun b hb => hpre b (List.mem_cons_of_mem x hb)

/-- Updating the first matching breakdown of a split updates the splitting
element in place. -/
theorem updateFirstBreakdown_split (key : String)
    (f : RewardBreakdown → RewardBreakdown) (pre post : List RewardBreakdown)
    (bd : RewardBreakdown)
    (hpre : ∀ b ∈ pre, b.operatorAddress ≠ key)
    (hbd : bd.operatorAddress = key) :
    updateFirstBreakdown key f (pre ++ bd :: post) = pre ++ f bd :: post := by
  induction pre with
  | nil => simp [updateFirstBreakdown, hbd]
  | cons x pre ih =>
    have hx := hpre x (List.mem_cons_self x pre)
    simp only [List.cons_append, updateFirstBreakdown, if_neg hx, List.append_eq]
    rw [ih fun b hb => hpre b (List.mem_cons_of_mem x hb)]

/-- After an upsert, looking up the payload's wallet finds the payload. -/
theorem lookupWallet_upsertReplace_self (s : List Reward) (p : Reward) :
    lookupWallet (upsertReplace s p) p.walletAddress = some p := by
  induction s with
  | nil => simp [upsertReplace, lookupWallet, List.find?]
  | cons r s ih =>
    by_cases h : r.walletAddress = p.walletAddress
    · simp [upsertReplace, h, lookupWallet, List.find?]
    · simpa [upsertReplace, h, lookupWallet, List.find?] using ih

/-- An upsert leaves every other wallet's record unchanged. -/
theorem lookupWallet_upsertReplace_other (s : List Reward) (p : Reward)
    (w : String) (hw : w ≠ p.walletAddress) :
    lookupWallet (upsertReplace s p) w = lookupWallet s w := by
  have hpw : ¬(p.walletAddress = w) := fun hh => hw hh.symm
  induction s with
  | nil => simp [upsertReplace, lookupWallet, List.find?, hpw]
  | cons r s ih =>
    by_cases h : r.walletAddress = p.walletAddress
    · have hrw : ¬(r.walletAddress = w) := fun hh => hpw (h.symm.trans hh)
      simp [upsertReplace, h, lookupWallet, List.find?, hrw, hpw]
    · by_cases hr : r.walletAddress = w
      · simp [upsertReplace, h, lookupWallet, List.find?, hr, hw]
      · simpa [upsertReplace, h, lookupWallet, List.find?, hr] using ih

/-- Upserting a payload identical to the stored record for its wallet is the
identity. -/
theorem upsertReplace_self_of_lookup (s : List Reward) (p : Reward)
    (h : lookupWallet s p.walletAddress = some p) :
    upsertReplace s p = s := by
  induction s with
  | nil => simp [lookupWallet, List.find?] at h
  | cons r s ih =>
    by_cases hr : r.walletAddress = p.walletAddress
    · have hrp : r = p := by
        simpa [lookupWallet, List.find?, hr] using h
      simp [upsertReplace, hr, hrp]
    · have h' : lookupWallet s p.walletAddress = some p := by
        simpa [lookupWallet, List.find?, hr] using h
      simp [upsertReplace, hr, ih h']

/-- The reward-persistence loop does not touch wallets outside its payload
list. -/
theorem lookupWallet_persistRewards_other (store : List Reward)
    (ps : List Reward) (w : String) (h : ∀ p ∈ ps, p.walletAddress ≠ w) :
    lookupWallet (persistRewards store ps) w = lookupWallet store w := by
  induction ps generalizing store with
  | nil => rfl
  | cons p ps ih =>
    have hstep :
        lookupWallet
            (if 0 < p.totalRewardsReceivedStETH then upsertReplace store p
             else store) w
          = lookupWallet store w := by
      split
      · exact lookupWallet_upsertReplace_other store p w
          fun hh => h p (List.mem_cons_self p ps) hh.symm
      · rfl
    calc lookupWallet (persistRewards store (p :: ps)) w
        = lookupWallet
            (persistRewards
              (if 0 < p.totalRewardsReceivedStETH then upsertReplace store p
               else store) ps) w := rfl
      _ = _ := by
          rw [ih _ fun q hq => h q (List.mem_cons_of_mem p hq), hstep]

/-- Re-running the reward-persistence loop on the same payload list (one
payload per distinct wallet, as `populateRewards` produces) is the
identity on the store it produced. -/
theorem persistRewards_idem (store : List Reward) (ps : List Reward)
    (hnd : ps.Pairwise fun p q => p.walletAddress ≠ q.walletAddress) :
    persistRewards (persistRewards store ps) ps = persistRewards store ps := by
  induction ps generalizing store with
  | nil => rfl
  | cons p ps ih =>
    obtain ⟨hp, hnd'⟩ := List.pairwise_cons.mp hnd
    by_cases hpos : 0 < p.totalRewardsReceivedStETH
    · have hfix :
          upsertReplace (persistRewards (upsertReplace store p) ps) p
            = persistRewards (upsertReplace store p) ps := by
        apply upsertReplace_self_of_lookup
        rw [lookupWallet_persistRewards_other _ ps p.walletAddress
          fun q hq => (hp q hq).symm]
        exact lookupWallet_upsertReplace_self store p
      calc persistRewards (persistRewards store (p :: ps)) (p :: ps)
          = persistRewards
              (upsertReplace (persistRewards (upsertReplace store p) ps) p) ps := by
            show persistRewards
                (if 0 < p.totalRewardsReceivedStETH then
                   upsertReplace
                     (persistRewards
                       (if 0 < p.totalRewardsReceivedStETH then
                          upsertReplace store p
                        else store) ps) p
                 else
                   persistRewards
                     (if 0 < p.totalRewardsReceivedStETH then upsertReplace store p
                      else store) ps) ps
              = _
            rw [if_pos hpos, if_pos hpos]
        _ = persistRewards (persistRewards (upsertReplace store p) ps) ps := by
            rw [hfix]
        _ = persistRewards (upsertReplace store p) ps := ih _ hnd'
        _ = persistRewards store (p :: ps) := by
            show _ = persistRewards
                (if 0 < p.totalRewardsReceivedStETH then upsertReplace store p
                 else store) ps
            rw [if_pos hpos]
    · calc persistRewards (persistRewards store (p :: ps)) (p :: ps)
          = persistRewards (persistRewards store ps) ps := by
            show persistRewards
                (if 0 < p.totalRewardsReceivedStETH then
                   upsertReplace
                     (persistRewards
                       (if 0 < p.totalRewardsReceivedStETH then
                          upsertReplace store p
                        else store) ps) p
                 else
                   persistRewards
                     (if 0 < p.totalRewardsReceivedStETH then upsertReplace store p
                      else store) ps) ps
              = _
            rw [if_neg hpos, if_neg hpos]
        _ = persistRewards store ps := ih _ hnd'
        _ = persistRewards store (p :: ps) := by
            show _ = persistRewards
                (if 0 < p.totalRewardsReceivedStETH then upsertReplace store p
                 else store) ps
            rw [if_neg hpos]

/-- C1 counterexample: the reward-population stage persists with a
full-document replace, not an additive merge.  Upserting an incoming payload
of 5 stETH for a wallet whose stored record holds 10 stETH from the same
operator leaves a total of 5, not 10 + 5; and running the stage twice on the
identical payload leaves the total at 5 rather than doubling it to 5 + 5. -/
theorem C1_counterexample :
    ((lookupWallet (persistRewards [storedReward] [incomingReward]) walletA).map
        (fun r => r.totalRewardsReceivedStETH) = some 5
      ∧ ¬ ((lookupWallet (persistRewards [storedReward] [incomingReward])
              walletA).map (fun r => r.totalRewardsReceivedStETH)
            = some (10 + 5)))
  ∧ ((lookupWallet
        (persistRewards (persistRewards [] [incomingReward]) [incomingReward])
        walletA).map (fun r => r.totalRewardsReceivedStETH) = some 5
      ∧ ¬ ((lookupWallet
              (persistRewards (persistRewards [] [incomingReward])
                [incomingReward]) walletA).map
              (fun r => r.totalRewardsReceivedStETH)
            = some (5 + 5))) := by
  refine ⟨⟨by decide, by decide⟩, ⟨by decide, by decide⟩⟩

/-- C1 amended: the `addReward` instance method does implement the additive
merge structure the claim describes — an existing breakdown for the operator
is updated in place (sequences appended, no duplicate created) and the
breakdown amount and running total are incremented — but the increments are
binary64 `parseFloat` additions, so they equal exactly the incoming delta
only when the stored value, the delta, and their sum are binary64
representable; and the reward-population stage persists through
`findOneAndUpdate` full-document replace and never calls `addReward`, so
re-running the stage on identical upstream data leaves
`totalRewardsReceivedStETH` unchanged (idempotent) rather than doubling it. -/
theorem C1_amended (pre post : List RewardBreakdown) (bd : RewardBreakdown)
    (r : Reward) (op : String) (amt : ℚ) (ts : Nat) (tx : Option String)
    (bn : Option Nat)
    (hsplit : r.rewardsBreakdown = pre ++ bd :: post)
    (hpre : ∀ b ∈ pre, b.operatorAddress ≠ strToLower op)
    (hbd : bd.operatorAddress = strToLower op) :
    ((addReward r op amt ts tx bn).rewardsBreakdown
        = pre ++
            { bd with
              amountStETH := fp64round (fp64round bd.amountStETH + fp64round amt)
              timestamps := bd.timestamps ++ [ts]
              transactionHashes :=
                match tx with
                | some h => bd.transactionHashes ++ [h]
                | none => bd.transactionHashes
              blockNumbers :=
                match bn with
                | some n => bd.blockNumbers ++ [n]
                | none => bd.blockNumbers } :: post
      ∧ (addReward r op amt ts tx bn).rewardsBreakdown.length
          = r.rewardsBreakdown.length
      ∧ (addReward r op amt ts tx bn).totalRewardsReceivedStETH
          = fp64round (fp64round r.totalRewardsReceivedStETH + fp64round amt)
      ∧ (fp64round bd.amountStETH = bd.amountStETH →
          fp64round amt = amt →
          fp64round (bd.amountStETH + amt) = bd.amountStETH + amt →
          fp64round (fp64round bd.amountStETH + fp64round amt)
            = bd.amountStETH + amt)
      ∧ (fp64round r.totalRewardsReceivedStETH = r.totalRewardsReceivedStETH →
          fp64round amt = amt →
          fp64round (r.totalRewardsReceivedStETH + amt)
            = r.totalRewardsReceivedStETH + amt →
          (addReward r op amt ts tx bn).totalRewardsReceivedStETH
            = r.totalRewardsReceivedStETH + amt))
  ∧ (∀ (store ps : List Reward),
      ps.Pairwise (fun p q => p.walletAddress ≠ q.walletAddress) →
      persistRewards (persistRewards store ps) ps = persistRewards store ps) := by
  have hfind : ((pre ++ bd :: post).find? fun b =>
      b.operatorAddress = strToLower op).isSome = true := by
    rw [find?_split (fun b => decide (b.operatorAddress = strToLower op))
      pre post bd (fun b hb => decide_eq_false (hpre b hb)) (decide_eq_true hbd)]
    rfl
  have h1 : (addReward r op amt ts tx bn).rewardsBreakdown
      = pre ++
          { bd with
            amountStETH := fp64round (fp64round bd.amountStETH + fp64round amt)
            timestamps := bd.timestamps ++ [ts]
            transactionHashes :=
              match tx with
              | some h => bd.transactionHashes ++ [h]
              | none => bd.transactionHashes
            blockNumbers :=
              match bn with
              | some n => bd.blockNumbers ++ [n]
              | none => bd.blockNumbers } :: post := by
    simp only [addReward, hfind, if_true, hsplit]
    rw [updateFirstBreakdown_split _ _ pre post bd hpre hbd]
  refine ⟨⟨h1, ?_, rfl, ?_, ?_⟩,
    fun store ps hnd => persistRewards_idem store ps hnd⟩
  · rw [h1, hsplit]
    simp
  · intro hA hB hS
    rw [hA, hB, hS]
  · intro hA hB hS
    show fp64round (fp64round r.totalRewardsReceivedStETH + fp64round amt)
        = r.totalRewardsReceivedStETH + amt
    rw [hA, hB, hS]

/-- Witness for C1's amended claim at concrete records: 10, 5 and 15 are all
binary64 representable, so merging 5 stETH into `storedReward`'s existing
`opAddrA` breakdown via `addReward` yields a total of exactly 10 + 5 with no
new breakdown, while re-running the persistence stage on the
`incomingReward` payload is the identity. -/
theorem C1_amended_witness :
    (addReward storedReward opAddrA 5 300 none none).totalRewardsReceivedStETH
        = storedReward.totalRewardsReceivedStETH + 5
  ∧ (addReward storedReward opAddrA 5 300 none none).rewardsBreakdown.length
      = storedReward.rewardsBreakdown.length
  ∧ persistRewards (persistRewards [] [incomingReward]) [incomingReward]
      = persistRewards [] [incomingReward] := by
  have h := C1_amended [] []
    { operatorAddress := opAddrA
      amountStETH := 10
      timestamps := [100, 200]
      transactionHashes := []
      blockNumbers := [] }
    storedReward opAddrA 5 300 none none (by decide) (by decide) (by decide)
  exact ⟨h.1.2.2.2.2 (by decide) (by decide) (by decide), h.1.2.1,
    h.2 [] [incomingReward] (by simp)⟩

/-- C2 counterexample: normalizing a payload of 0.1 ether and 0.2 ether, the
`parseFloat` accumulation chain stores the binary64 value of 0.1 + 0.2,
which is not the exact decimal sum 0.3. -/
theorem C2_counterexample :
    (transformRatedRewardsData
        { rewards := some [sampleItem (10 ^ 17), sampleItem (2 * 10 ^ 17)] }
        walletA 0).totalRewardsReceivedStETH
      ≠ exactDecimalTotal [sampleItem (10 ^ 17), sampleItem (2 * 10 ^ 17)] := by
  decide

/-- The double-rounding accumulation chain agrees with the exact sum when
every summand and every partial sum is exactly representable in binary64. -/
theorem ratedChain_exact (l : List ℚ) (t : ℚ)
    (hA : ∀ a ∈ l, fp64round a = a)
    (hP : ∀ k, k ≤ l.length → fp64round (t + (l.take k).sum) = t + (l.take k).sum) :
    l.foldl (fun tot a => fp64round (tot + fp64round a)) t = t + l.sum := by
  induction l generalizing t with
  | nil => simp
  | cons a l ih =>
    have ha : fp64round a = a := hA a (List.mem_cons_self a l)
    have hta : fp64round (t + a) = t + a := by
      have := hP 1 (by simp)
      simpa using this
    simp only [List.foldl_cons, ha, hta]
    rw [ih (t + a) (fun x hx => hA x (List.mem_cons_of_mem a hx))
      (fun k hk => by
        have := hP (k + 1) (by simpa using hk)
        simpa [List.take_succ_cons, add_assoc] using this)]
    simp [add_assoc]

/-- C2 amended: `transformRatedRewardsData` accumulates
`totalRewardsReceivedStETH` with binary64 floating-point additions of the
parsed converted amounts (a `parseFloat` chain), not exact decimal
arithmetic; the stored total equals the exact decimal sum of the converted
amounts exactly when every converted amount and every running partial sum is
representable in binary64, and can deviate otherwise. -/
theorem C2_amended (rs : List RawRewardItem) (w : String) (now : Nat)
    (hA : ∀ r ∈ rs, fp64round (convAmount r) = convAmount r)
    (hP : ∀ k, k ≤ rs.length →
      fp64round (exactDecimalTotal (rs.take k)) = exactDecimalTotal (rs.take k)) :
    (transformRatedRewardsData { rewards := some rs } w now).totalRewardsReceivedStETH
      = exactDecimalTotal rs := by
  show ratedTotal rs = exactDecimalTotal rs
  have hfold : ratedTotal rs
      = (rs.map convAmount).foldl (fun tot a => fp64round (tot + fp64round a)) 0 := by
    rw [ratedTotal, List.foldl_map]
  rw [hfold, ratedChain_exact (rs.map convAmount) 0
    (fun a ha => by
      obtain ⟨r, hr, rfl⟩ := List.mem_map.mp ha
      exact hA r hr)
    (fun k hk => by
      have hk' : k ≤ rs.length := by simpa using hk
      have := hP k hk'
      simpa [exactDecimalTotal, List.map_take] using this)]
  simp [exactDecimalTotal]

/-- Witness for C2's amended claim at a concrete payload: 1 ether and
2 ether convert to 1 and 2, whose partial sums 0, 1, 3 are all binary64
representable, so the stored total equals the exact decimal sum. -/
theorem C2_amended_witness :
    (transformRatedRewardsData
        { rewards := some [sampleItem (10 ^ 18), sampleItem (2 * 10 ^ 18)] }
        walletA 0).totalRewardsReceivedStETH
      = exactDecimalTotal [sampleItem (10 ^ 18), sampleItem (2 * 10 ^ 18)] :=
  C2_amended [sampleItem (10 ^ 18), sampleItem (2 * 10 ^ 18)] walletA 0
    (by decide) (by decide)

end

end RestakeSpec
